import Mathlib

/-!
Shallow embedding of the fit pipeline of
optbinning/binning/multidimensional/continuous_binning_2d.py
(class ContinuousOptimalBinning2D).

Floats are modelled as exact rationals; a non-finite float result
(inf or nan, e.g. from a division by zero) is modelled as Option.none.
Integer-typed Python values are modelled as Int or Nat, numpy arrays as
lists, and two-dimensional numpy arrays as lists of row lists.
-/

namespace OptBin

/-- Float division as numpy performs it on float64 scalars: dividing by
zero does not raise but yields a non-finite value (inf or nan),
modelled as none. -/
def np_div (a b : ℚ) : Option ℚ := if b = 0 then none else some (a / b)

/-- numpy digitize with increasing bins and right set to False: each
value is placed in a right-open interval, so the returned index is the
number of bin edges b with b le v (searchsorted, side right). This is
the cell-assignment primitive used at lines 579-583 of the source. -/
def np_digitize (v : ℚ) (bins : List ℚ) : ℕ :=
  (bins.filter (fun b => decide (b ≤ v))).length

/-- The count of split points strictly below v, following the words of
the spec (section 4.3) for comparison with np_digitize. -/
def strict_less_count (v : ℚ) (splits : List ℚ) : ℕ :=
  (splits.filter (fun b => decide (b < v))).length

theorem np_digitize_le_length (v : ℚ) (bins : List ℚ) :
    np_digitize v bins ≤ bins.length :=
  List.length_filter_le _ _

/-- C6 (counterexample): at a value equal to a split point, the index
assigned by the digitize step is not the number of split points
strictly less than the value: with splits x equal to the one-point list
1 and v equal to 1, digitize yields 1 while the strict count is 0. -/
theorem c6_strictly_less_cex :
    ¬ (np_digitize 1 [(1 : ℚ)] = strict_less_count 1 [(1 : ℚ)]) := by
  decide

/-- C6 (amended): cell assignment uses right-open interval membership:
for a strictly increasing split array the index assigned to v is the
number of split points less than or equal to v; every split point
strictly below the assigned index is at most v and every split point at
or beyond the assigned index is strictly greater than v, and the
assignment is a total function of v. -/
theorem c6_digitize_right_open (splits : List ℚ) (v : ℚ)
    (hs : List.Sorted (· < ·) splits) :
    np_digitize v splits ≤ splits.length ∧
    (∀ k (hk : k < splits.length), k < np_digitize v splits →
      splits.get ⟨k, hk⟩ ≤ v) ∧
    (∀ k (hk : k < splits.length), np_digitize v splits ≤ k →
      v < splits.get ⟨k, hk⟩) := by
  induction splits with
  | nil =>
    refine ⟨Nat.le_refl 0, ?_, ?_⟩ <;>
      exact fun k hk => absurd hk (Nat.not_lt_zero k)
  | cons s rest ih =>
    rw [List.sorted_cons] at hs
    obtain ⟨hhead, hsorted⟩ := hs
    obtain ⟨iha, ihb, ihc⟩ := ih hsorted
    by_cases hsv : s ≤ v
    · have hdig : np_digitize v (s :: rest) = np_digitize v rest + 1 := by
        simp [np_digitize, List.filter_cons, hsv]
      refine ⟨?_, ?_, ?_⟩
      · rw [hdig]
        simpa [Nat.succ_le_succ_iff] using iha
      · intro k hk hklt
        match k with
        | 0 => simpa using hsv
        | Nat.succ j =>
          have hj : j < rest.length := Nat.lt_of_succ_lt_succ hk
          have hjlt : j < np_digitize v rest := by
            rw [hdig] at hklt
            exact Nat.lt_of_succ_lt_succ hklt
          simpa using ihb j hj hjlt
      · intro k hk hkge
        match k with
        | 0 =>
          exfalso
          rw [hdig] at hkge
          exact Nat.not_succ_le_zero _ hkge
        | Nat.succ j =>
          have hj : j < rest.length := Nat.lt_of_succ_lt_succ hk
          have hjge : np_digitize v rest ≤ j := by
            rw [hdig] at hkge
            exact Nat.lt_succ_iff.mp hkge
          simpa using ihc j hj hjge
    · have hvs : v < s := lt_of_not_le hsv
      have hdig : np_digitize v (s :: rest) = np_digitize v rest := by
        simp [np_digitize, List.filter_cons, hsv]
      have hrest0 : np_digitize v rest = 0 := by
        have : rest.filter (fun b => decide (b ≤ v)) = [] := by
          rw [List.filter_eq_nil_iff]
          intro b hb
          have : v < b := lt_trans hvs (hhead b hb)
          simpa using not_le_of_lt this
        simp [np_digitize, this]
      refine ⟨?_, ?_, ?_⟩
      · rw [hdig, hrest0]; exact Nat.zero_le _
      · intro k hk hklt
        rw [hdig, hrest0] at hklt
        exact absurd hklt (Nat.not_lt_zero k)
      · intro k hk _
        match k with
        | 0 => simpa using hvs
        | Nat.succ j =>
          have hj : j < rest.length := Nat.lt_of_succ_lt_succ hk
          have : s < rest.get ⟨j, hj⟩ := hhead _ (rest.get_mem _ _)
          simpa using lt_trans hvs this

/-- Number of grid refinements recorded after solving, from line 482 of
the source: Python floor division of m times n times m plus one times
n plus one by 4, minus the number of candidate rows. -/
def n_refinements (m n c : ℕ) : ℤ :=
  ((m : ℤ) * n * (m + 1) * (n + 1)) / 4 - c

/-- C8: the recorded number of grid refinements equals the closed form
computed in exact arithmetic: the product m n (m+1) (n+1) is always
divisible by 4, so the floor division at line 482 is an exact rational
division and the diagnostic equals the closed form minus the number of
candidates. -/
theorem c8_refinements_exact (m n c : ℕ) :
    (4 : ℤ) ∣ ((m : ℤ) * n * (m + 1) * (n + 1)) ∧
    (n_refinements m n c : ℚ) =
      ((m : ℚ) * n * (m + 1) * (n + 1)) / 4 - c := by
  obtain ⟨a, ha⟩ := Int.even_mul_succ_self (m : ℤ)
  obtain ⟨b, hb⟩ := Int.even_mul_succ_self (n : ℤ)
  have h4 : ((m : ℤ) * n * (m + 1) * (n + 1)) = 4 * (a * b) := by
    have hsplit : ((m : ℤ) * n * (m + 1) * (n + 1)) =
        ((m : ℤ) * (m + 1)) * ((n : ℤ) * (n + 1)) := by ring
    rw [hsplit, ha, hb]; ring
  refine ⟨⟨a * b, h4⟩, ?_⟩
  have hdiv : ((m : ℤ) * n * (m + 1) * (n + 1)) / 4 = a * b := by
    rw [h4]
    exact Int.mul_ediv_cancel_left _ (by norm_num)
  have h4q : ((m : ℚ) * n * (m + 1) * (n + 1)) = 4 * ((a : ℚ) * b) := by
    have := congrArg (fun t : ℤ => (t : ℚ)) h4
    push_cast at this
    convert this using 2
  unfold n_refinements
  rw [hdiv, h4q]
  push_cast
  ring

/-- Maximum leaf count handed to the auxiliary regression tree in the
cart strategy, from line 430 of the source: the product of the numbers
of split points on the two axes. -/
def cart_clf_nodes (splits_x splits_y : List ℚ) : ℕ :=
  splits_x.length * splits_y.length

/-- Minimum leaf size handed to the auxiliary regression tree in the
cart strategy, from lines 449-450 of the source: the smaller of the two
axis pre-bin size fractions scaled by 0.25. -/
def cart_min_prebin_size (min_prebin_size_x min_prebin_size_y : ℚ) : ℚ :=
  min min_prebin_size_x min_prebin_size_y * 0.25

/-- C10: under the cart strategy the regression tree minimum leaf size
equals one quarter of the minimum of the two configured axis pre-bin
size fractions (the 0.25 float factor is exactly one fourth), and the
maximum leaf count equals the product of the two split-array lengths. -/
theorem c10_cart_tree_params (px py : ℚ) (sx sy : List ℚ) :
    cart_min_prebin_size px py = min px py / 4 ∧
    cart_clf_nodes sx sy = sx.length * sy.length := by
  constructor
  · unfold cart_min_prebin_size
    norm_num
    ring
  · rfl

/-- Configuration surface of ContinuousOptimalBinning2D (constructor at
lines 165-206 of the source). Fields whose Python check is a pure
isinstance test (name strings, numeric types, boolean verbose) are
given the corresponding Lean type, so only the value checks of
check_parameters remain. -/
structure Params where
  name_x : String
  name_y : String
  dtype_x : String
  dtype_y : String
  prebinning_method : String
  strategy : String
  solver : String
  max_n_prebins_x : ℤ
  max_n_prebins_y : ℤ
  min_prebin_size_x : ℚ
  min_prebin_size_y : ℚ
  min_n_bins : Option ℤ
  max_n_bins : Option ℤ
  min_bin_size : Option ℚ
  max_bin_size : Option ℚ
  monotonic_trend_x : Option String
  monotonic_trend_y : Option String
  min_mean_diff_x : ℚ
  min_mean_diff_y : ℚ
  gamma : ℚ
  special_codes_x : Option (List ℚ)
  special_codes_y : Option (List ℚ)
  split_digits : Option ℤ
  n_jobs : Option ℤ
  time_limit : ℚ
  verbose : Bool

/-- One abstract error value per ValueError site of check_parameters
(lines 31-161 of the source). -/
inductive ParamError
  | dtype_x
  | dtype_y
  | prebinning_method
  | strategy
  | solver
  | max_n_prebins_x
  | max_n_prebins_y
  | min_prebin_size_x
  | min_prebin_size_y
  | min_n_bins
  | max_n_bins
  | min_le_max_n_bins
  | min_bin_size
  | max_bin_size
  | min_le_max_bin_size
  | monotonic_trend_x
  | monotonic_trend_y
  | gamma
  | split_digits
  | time_limit
deriving DecidableEq

/-- An optional value is present and violates the given test (the shape
of the Python pattern: if v is not None and bad then raise). -/
def opt_bad {α : Type} (o : Option α) (bad : α → Bool) : Bool :=
  match o with
  | none => false
  | some a => bad a

/-- Both optional values are present and jointly violate the test. -/
def opt2_bad {α β : Type} (o : Option α) (q : Option β)
    (bad : α → β → Bool) : Bool :=
  match o, q with
  | some a, some b => bad a b
  | _, _ => false

/-- A Python chain of sequential raise checks: the first violated check
raises its error, and only when every check passes does control fall
through. -/
def first_error {α : Type} : List (Bool × α) → Except α Unit
  | [] => Except.ok ()
  | (b, e) :: rest => if b then Except.error e else first_error rest

/-- The value checks of check_parameters, lines 31-161 of the source, as
the ordered list of raise conditions with their error sites. -/
def param_checks (p : Params) : List (Bool × ParamError) :=
  [ (decide (p.dtype_x ≠ "numerical"), ParamError.dtype_x)
  , (decide (p.dtype_y ≠ "numerical"), ParamError.dtype_y)
  , (decide (p.prebinning_method ∉ ["cart", "mdlp", "quantile", "uniform"]),
      ParamError.prebinning_method)
  , (decide (p.strategy ∉ ["grid", "cart"]), ParamError.strategy)
  , (decide (p.solver ∉ ["cp", "mip"]), ParamError.solver)
  , (decide (p.max_n_prebins_x ≤ 1), ParamError.max_n_prebins_x)
  , (decide (p.max_n_prebins_y ≤ 1), ParamError.max_n_prebins_y)
  , (decide (¬ (0 < p.min_prebin_size_x ∧ p.min_prebin_size_x ≤ 0.5)),
      ParamError.min_prebin_size_x)
  , (decide (¬ (0 < p.min_prebin_size_y ∧ p.min_prebin_size_y ≤ 0.5)),
      ParamError.min_prebin_size_y)
  , (opt_bad p.min_n_bins (fun a => decide (a ≤ 0)), ParamError.min_n_bins)
  , (opt_bad p.max_n_bins (fun a => decide (a ≤ 0)), ParamError.max_n_bins)
  , (opt2_bad p.min_n_bins p.max_n_bins (fun a b => decide (a > b)),
      ParamError.min_le_max_n_bins)
  , (opt_bad p.min_bin_size (fun q => decide (¬ (0 < q ∧ q ≤ 0.5))),
      ParamError.min_bin_size)
  , (opt_bad p.max_bin_size (fun q => decide (¬ (0 < q ∧ q ≤ 1))),
      ParamError.max_bin_size)
  , (opt2_bad p.min_bin_size p.max_bin_size (fun a b => decide (a > b)),
      ParamError.min_le_max_bin_size)
  , (opt_bad p.monotonic_trend_x
      (fun t => !(["ascending", "descending"].contains t)),
      ParamError.monotonic_trend_x)
  , (opt_bad p.monotonic_trend_y
      (fun t => !(["ascending", "descending"].contains t)),
      ParamError.monotonic_trend_y)
  , (decide (p.gamma < 0), ParamError.gamma)
  , (opt_bad p.split_digits (fun d => decide (¬ (0 ≤ d ∧ d ≤ 8))),
      ParamError.split_digits)
  , (decide (p.time_limit < 0), ParamError.time_limit) ]

/-- The parameter validation entry point (lines 31-161 of the source):
run the raise chain in source order. -/
def check_parameters (p : Params) : Except ParamError Unit :=
  first_error (param_checks p)

theorem first_error_err {α : Type} {l : List (Bool × α)} {e : α}
    (hmem : (true, e) ∈ l) :
    ∃ e2, first_error l = Except.error e2 := by
  induction l with
  | nil => cases hmem
  | cons hd tl ih =>
    obtain ⟨b0, e0⟩ := hd
    by_cases hb0 : b0 = true
    · subst hb0
      exact ⟨e0, by simp [first_error]⟩
    · have hb0f : b0 = false := by
        cases b0
        · rfl
        · exact absurd rfl hb0
      subst hb0f
      rcases List.mem_cons.mp hmem with heq | hmem2
      · cases heq
      · obtain ⟨e2, h2⟩ := ih hmem2
        exact ⟨e2, by simpa [first_error] using h2⟩

/-- Result of segregating the input triplets. Clean samples carry plain
rational coordinates; missing and special samples keep the raw optional
coordinates. -/
structure SplitResult where
  clean : List (ℚ × ℚ × ℚ)
  missing : List (Option ℚ × Option ℚ × ℚ)
  special : List (Option ℚ × Option ℚ × ℚ)

/-- A raw coordinate is present and matches its axis sentinel set. -/
def code_matches (codes : Option (List ℚ)) (v : Option ℚ) : Bool :=
  match v, codes with
  | some a, some cs => cs.contains a
  | _, _ => false

/-- Modelled from the spec: split_data_2d lives in preprocessing_2d.py,
which is not under src. Spec section 4.1: a sample is special if either
coordinate matches its axis sentinel set; else missing if either
coordinate is non-finite or absent (modelled as none); else clean;
original ordering is preserved within each subset and every index lands
in exactly one subset. -/
def split_data_2d (codes_x codes_y : Option (List ℚ)) :
    List (Option ℚ) → List (Option ℚ) → List ℚ → SplitResult
  | xv :: xs, yv :: ys, zv :: zs =>
    let r := split_data_2d codes_x codes_y xs ys zs
    if code_matches codes_x xv || code_matches codes_y yv then
      { r with special := (xv, yv, zv) :: r.special }
    else
      match xv, yv with
      | some a, some b => { r with clean := (a, b, zv) :: r.clean }
      | _, _ => { r with missing := (xv, yv, zv) :: r.missing }
  | _, _, _ => ⟨[], [], []⟩

/-- Per-bin sample-count bound passed to the optimizer, from lines
608-617 of the source: the ceiling of the configured fraction scaled by
the recorded sample count, or None when the fraction is not set. -/
def bin_size_bound (frac : Option ℚ) (n_samples : ℕ) : Option ℤ :=
  match frac with
  | none => none
  | some f => some ⌈f * (n_samples : ℚ)⌉

/-- The observable quantities of the fit pipeline head needed by the
claims: the sample count recorded at line 372, the clean subset size
(line 388), and the two optimizer size bounds (lines 608-617). -/
structure FitOutcome where
  n_samples : ℕ
  clean_count : ℕ
  min_bin_size_bound : Option ℤ
  max_bin_size_bound : Option ℤ
deriving DecidableEq

/-- The data-dependent part of fit: records n_samples as the raw input
length (line 372), segregates the data (lines 380-383), and derives the
optimizer size bounds from n_samples (lines 608-617). -/
def fit_body (p : Params) (x y : List (Option ℚ)) (z : List ℚ) :
    FitOutcome :=
  let n_samples := x.length
  let parts := split_data_2d p.special_codes_x p.special_codes_y x y z
  { n_samples := n_samples
    clean_count := parts.clean.length
    min_bin_size_bound := bin_size_bound p.min_bin_size n_samples
    max_bin_size_bound := bin_size_bound p.max_bin_size n_samples }

/-- The head of fit (lines 359-372 of the source): check_parameters runs
first; only when it passes is any of x, y, z read. -/
def fit_run (p : Params) (x y : List (Option ℚ)) (z : List ℚ) :
    Except ParamError FitOutcome :=
  match check_parameters p with
  | Except.error e => Except.error e
  | Except.ok _ => Except.ok (fit_body p x y z)

/-- C9: for an invalid configuration (negative gamma, negative time
limit, a pre-bin size fraction outside the half-open interval from 0 to
one half, or a minimum bin count above the maximum), fit raises the
configuration error synchronously: the error is produced before and
independently of the input data, and no fitted state is returned for
any input arrays. -/
theorem c9_invalid_config_early_error (p : Params)
    (h : p.gamma < 0 ∨ p.time_limit < 0 ∨
      ¬ (0 < p.min_prebin_size_x ∧ p.min_prebin_size_x ≤ 0.5) ∨
      ¬ (0 < p.min_prebin_size_y ∧ p.min_prebin_size_y ≤ 0.5) ∨
      opt2_bad p.min_n_bins p.max_n_bins (fun a b => decide (a > b)) = true) :
    ∃ e, check_parameters p = Except.error e ∧
      ∀ (x y : List (Option ℚ)) (z : List ℚ),
        fit_run p x y z = Except.error e := by
  have herr : ∃ e, check_parameters p = Except.error e := by
    unfold check_parameters
    rcases h with hbad | hbad | hbad | hbad | hbad
    · exact first_error_err (e := ParamError.gamma)
        (by simp [param_checks, decide_eq_true hbad])
    · exact first_error_err (e := ParamError.time_limit)
        (by simp [param_checks, decide_eq_true hbad])
    · refine first_error_err (e := ParamError.min_prebin_size_x) ?_
      simp only [param_checks, List.mem_cons]
      refine Or.inr (Or.inr (Or.inr (Or.inr (Or.inr (Or.inr (Or.inr
        (Or.inl ?_)))))))
      rw [decide_eq_true hbad]
    · refine first_error_err (e := ParamError.min_prebin_size_y) ?_
      simp only [param_checks, List.mem_cons]
      refine Or.inr (Or.inr (Or.inr (Or.inr (Or.inr (Or.inr (Or.inr
        (Or.inr (Or.inl ?_))))))))
      rw [decide_eq_true hbad]
    · exact first_error_err (e := ParamError.min_le_max_n_bins)
        (by simp [param_checks, hbad])
  obtain ⟨e, he⟩ := herr
  refine ⟨e, he, fun x y z => ?_⟩
  unfold fit_run
  rw [he]

/-- Default constructor arguments of ContinuousOptimalBinning2D (lines
165-173 of the source). -/
def default_params : Params :=
  { name_x := ""
    name_y := ""
    dtype_x := "numerical"
    dtype_y := "numerical"
    prebinning_method := "cart"
    strategy := "grid"
    solver := "cp"
    max_n_prebins_x := 5
    max_n_prebins_y := 5
    min_prebin_size_x := 0.05
    min_prebin_size_y := 0.05
    min_n_bins := none
    max_n_bins := none
    min_bin_size := none
    max_bin_size := none
    monotonic_trend_x := none
    monotonic_trend_y := none
    min_mean_diff_x := 0
    min_mean_diff_y := 0
    gamma := 0
    special_codes_x := none
    special_codes_y := none
    split_digits := none
    n_jobs := some 1
    time_limit := 100
    verbose := false }

/-- A configuration that is valid except for a negative gamma. -/
def p9 : Params := { default_params with gamma := -1 }

theorem c9_invalid_config_early_error_witness :
    (p9.gamma < 0 ∨ p9.time_limit < 0 ∨
      ¬ (0 < p9.min_prebin_size_x ∧ p9.min_prebin_size_x ≤ 0.5) ∨
      ¬ (0 < p9.min_prebin_size_y ∧ p9.min_prebin_size_y ≤ 0.5) ∨
      opt2_bad p9.min_n_bins p9.max_n_bins (fun a b => decide (a > b)) = true) ∧
    (∃ e, check_parameters p9 = Except.error e ∧
      ∀ (x y : List (Option ℚ)) (z : List ℚ),
        fit_run p9 x y z = Except.error e) :=
  ⟨Or.inl (by decide), c9_invalid_config_early_error p9 (Or.inl (by decide))⟩

/-- A configuration with a sentinel code on the x axis and both bin size
fractions set, used to exercise the optimizer size bounds. -/
def p4 : Params :=
  { default_params with
      min_bin_size := some 0.5
      max_bin_size := some 0.75
      special_codes_x := some [-999] }

/-- Input x vector with two clean and two special-coded samples. -/
def x4 : List (Option ℚ) := [some 1, some 2, some (-999), some (-999)]

/-- Input y vector for the same samples. -/
def y4 : List (Option ℚ) := [some 0, some 0, some 0, some 0]

/-- Target vector for the same samples. -/
def z4 : List ℚ := [0, 0, 0, 0]

/-- C4 (counterexample): with two of four samples special-coded and a
minimum bin size fraction of one half, the bound handed to the
optimizer is the ceiling of the fraction times the TOTAL sample count
(2), not the ceiling of the fraction times the clean sample count
(which would be 1): line 372 records n samples as the raw input length
before segregation, and lines 608-617 scale by that count. -/
theorem c4_total_vs_clean_cex :
    (fit_body p4 x4 y4 z4).clean_count = 2 ∧
    (fit_body p4 x4 y4 z4).min_bin_size_bound = some 2 ∧
    ¬ ((fit_body p4 x4 y4 z4).min_bin_size_bound =
        some ⌈(0.5 : ℚ) * (((fit_body p4 x4 y4 z4).clean_count : ℕ) : ℚ)⌉) := by
  have h1 : (fit_body p4 x4 y4 z4).clean_count = 2 := by decide
  have h2 : (fit_body p4 x4 y4 z4).min_bin_size_bound = some 2 := by
    show bin_size_bound p4.min_bin_size x4.length = some 2
    show bin_size_bound (some 0.5) 4 = some 2
    unfold bin_size_bound
    norm_num
  refine ⟨h1, h2, ?_⟩
  rw [h2, h1]
  norm_num

/-- C4 (amended): when min bin size (resp. max bin size) is configured
as a fraction, the per-bin sample-count bound passed to the optimizer
equals the ceiling of that fraction multiplied by the TOTAL input
sample count, the raw length of x recorded before special and missing
samples are segregated; it does not depend on the clean subset. -/
theorem c4_bin_size_bounds_total (p : Params) (x y : List (Option ℚ))
    (z : List ℚ) (qmin qmax : ℚ)
    (hmin : p.min_bin_size = some qmin) (hmax : p.max_bin_size = some qmax) :
    (fit_body p x y z).min_bin_size_bound = some ⌈qmin * (x.length : ℚ)⌉ ∧
    (fit_body p x y z).max_bin_size_bound = some ⌈qmax * (x.length : ℚ)⌉ := by
  constructor <;> simp [fit_body, bin_size_bound, hmin, hmax]

theorem c4_bin_size_bounds_total_witness :
    p4.min_bin_size = some 0.5 ∧ p4.max_bin_size = some 0.75 ∧
    ((fit_body p4 x4 y4 z4).min_bin_size_bound =
        some ⌈(0.5 : ℚ) * ((x4.length : ℕ) : ℚ)⌉ ∧
      (fit_body p4 x4 y4 z4).max_bin_size_bound =
        some ⌈(0.75 : ℚ) * ((x4.length : ℕ) : ℚ)⌉) :=
  ⟨rfl, rfl, c4_bin_size_bounds_total p4 x4 y4 z4 0.5 0.75 rfl rfl⟩

/-- numpy boolean-mask selection: keep the elements whose flag is true,
as in rows selected by the boolean solution vector at line 488. -/
def bool_mask {α : Type} : List α → List Bool → List α
  | a :: as, b :: bs => if b then a :: bool_mask as bs else bool_mask as bs
  | _, _ => []

theorem bool_mask_length_congr {α β : Type} :
    ∀ (bs : List Bool) (l : List α) (l2 : List β),
      l.length = l2.length → (bool_mask l bs).length = (bool_mask l2 bs).length
  | [], l, l2, _ => by
    cases l <;> cases l2 <;> rfl
  | _ :: _, [], [], _ => rfl
  | b :: bs, a :: as, a2 :: as2, h => by
    have h2 : as.length = as2.length := by simpa using h
    cases b <;> simp [bool_mask, bool_mask_length_congr bs as as2 h2]

/-- Sequential writes of a value list into consecutive positions of an
array, starting at index i: the shape of the Python loop writing the
selected candidate statistics into the preallocated opt arrays at lines
499-509. -/
def write_seq : List ℚ → ℕ → List ℚ → List ℚ
  | [], _, acc => acc
  | v :: vs, i, acc => write_seq vs (i + 1) (acc.set i v)

theorem write_seq_length (vs : List ℚ) :
    ∀ (i : ℕ) (acc : List ℚ), (write_seq vs i acc).length = acc.length := by
  induction vs with
  | nil => intro i acc; rfl
  | cons v vs ih =>
    intro i acc
    rw [write_seq, ih]
    exact List.length_set acc i v

theorem write_seq_fill (vs : List ℚ) :
    ∀ (pre old suf : List ℚ), old.length = vs.length →
      write_seq vs pre.length (pre ++ old ++ suf) = pre ++ vs ++ suf := by
  induction vs with
  | nil =>
    intro pre old suf h
    have : old = [] := List.length_eq_zero.mp h
    subst this
    rfl
  | cons v vs ih =>
    intro pre old suf h
    obtain ⟨o, os, rfl⟩ : ∃ o os, old = o :: os := by
      cases old with
      | nil => simp at h
      | cons o os => exact ⟨o, os, rfl⟩
    have hset : (pre ++ (o :: os) ++ suf).set pre.length v =
        (pre ++ [v]) ++ os ++ suf := by
      rw [List.append_assoc, List.set_append_right _ _ (Nat.le_refl _)]
      simp
    have hos : os.length = vs.length := by simpa using h
    have hlen : pre.length + 1 = (pre ++ [v]).length := by simp
    rw [write_seq, hset, hlen, ih (pre ++ [v]) os suf hos]
    simp

/-- Writing k values into a fresh array of length k plus two and then
setting the two trailing slots yields the values followed by the two
trailing entries: the final shape of the opt arrays of lines 495-517. -/
theorem opt_array_writes (vs : List ℚ) (g a b : ℚ) :
    ((write_seq vs 0 (List.replicate (vs.length + 2) g)).set vs.length a).set
      (vs.length + 1) b = vs ++ [a, b] := by
  have hrep : List.replicate (vs.length + 2) g =
      List.replicate vs.length g ++ [g, g] := by
    rw [List.replicate_add]
    rfl
  have h0 : write_seq vs 0 (List.replicate (vs.length + 2) g) =
      vs ++ [g, g] := by
    have := write_seq_fill vs [] (List.replicate vs.length g) [g, g]
      (by simp)
    simpa [hrep] using this
  rw [h0, List.set_append_right _ _ (Nat.le_refl _),
    List.set_append_right _ _ (by simp)]
  simp

theorem foldl_set_length {α : Type} (r : List ℕ) (v : α) :
    ∀ (L : List α), (r.foldl (fun Q j => Q.set j v) L).length = L.length := by
  induction r with
  | nil => intro L; rfl
  | cons j r ih =>
    intro L
    rw [List.foldl_cons, ih]
    exact List.length_set L j v

theorem foldl_set_getD_not_mem {α : Type} (r : List ℕ) (v : α) (c : ℕ) (d : α) :
    c ∉ r →
    ∀ (L : List α), (r.foldl (fun Q j => Q.set j v) L).getD c d = L.getD c d := by
  induction r with
  | nil => intro _ L; rfl
  | cons j r ih =>
    intro hc L
    have hcj : c ≠ j := fun h => hc (h ▸ List.mem_cons_self j r)
    have hcr : c ∉ r := fun h => hc (List.mem_cons_of_mem _ h)
    rw [List.foldl_cons, ih hcr (L.set j v)]
    simp [List.getD_eq_getElem?_getD, List.getElem?_set_ne (Ne.symm hcj)]

theorem foldl_set_getD_of {α : Type} (r : List ℕ) (v : α) (c : ℕ) (d : α) :
    ∀ (L : List α), c < L.length → (L.getD c d = v ∨ c ∈ r) →
      (r.foldl (fun Q j => Q.set j v) L).getD c d = v := by
  induction r with
  | nil =>
    intro L _ h
    rcases h with h | h
    · exact h
    · cases h
  | cons j r ih =>
    intro L hlen h
    rw [List.foldl_cons]
    apply ih (L.set j v) (by simpa using hlen)
    by_cases hcj : c = j
    · left
      subst hcj
      simp [List.getD_eq_getElem?_getD, List.getElem?_set_self hlen]
    · rcases h with h | h
      · left
        rw [List.getD_eq_getElem?_getD] at h ⊢
        rw [List.getElem?_set_ne (Ne.symm hcj)]
        exact h
      · rcases List.mem_cons.mp h with h | h
        · exact absurd h hcj
        · right
          exact h

theorem foldl_set_getD_mem {α : Type} (r : List ℕ) (v : α) (c : ℕ) (d : α)
    (L : List α) (hlen : c < L.length) (hmem : c ∈ r) :
    (r.foldl (fun Q j => Q.set j v) L).getD c d = v :=
  foldl_set_getD_of r v c d L hlen (Or.inr hmem)

/-- The loop body P at row r equals candidate index i (line 505 of the
source): iterate over the selected rows, each writing its own ordinal
into every cell it covers. -/
def write_cells : List (List ℕ) → ℕ → List ℤ → List ℤ
  | [], _, P => P
  | r :: rs, i, P => write_cells rs (i + 1) (r.foldl (fun Q c => Q.set c (i : ℤ)) P)

theorem write_cells_length (rs : List (List ℕ)) :
    ∀ (i : ℕ) (P : List ℤ), (write_cells rs i P).length = P.length := by
  induction rs with
  | nil => intro i P; rfl
  | cons r rs ih =>
    intro i P
    rw [write_cells, ih]
    exact foldl_set_length r _ P

theorem write_cells_getD_not_mem (rs : List (List ℕ)) (c : ℕ) (d : ℤ) :
    (∀ r ∈ rs, c ∉ r) →
    ∀ (i : ℕ) (P : List ℤ), (write_cells rs i P).getD c d = P.getD c d := by
  induction rs with
  | nil => intro _ i P; rfl
  | cons r rs ih =>
    intro h i P
    have hr : c ∉ r := h r (List.mem_cons_self r rs)
    have hrs : ∀ r2 ∈ rs, c ∉ r2 := fun r2 hm => h r2 (List.mem_cons_of_mem _ hm)
    rw [write_cells, ih hrs]
    exact foldl_set_getD_not_mem r _ c d hr P

/-- The loop body D at row r equals the recomputed candidate mean (lines
502 and 506 of the source): iterate over the selected rows paired with
their means, each mean written into every cell of its row. -/
def write_means : List (List ℕ) → List (Option ℚ) → List (Option ℚ) → List (Option ℚ)
  | r :: rs, mv :: ms, D => write_means rs ms (r.foldl (fun E c => E.set c mv) D)
  | _, _, D => D

theorem write_means_length (rs : List (List ℕ)) :
    ∀ (ms : List (Option ℚ)) (D : List (Option ℚ)),
      (write_means rs ms D).length = D.length := by
  induction rs with
  | nil => intro ms D; rfl
  | cons r rs ih =>
    intro ms D
    cases ms with
    | nil => rfl
    | cons mv ms =>
      rw [write_means, ih]
      exact foldl_set_length r _ D

theorem write_means_getD_not_mem (rs : List (List ℕ)) (c : ℕ) (d : Option ℚ) :
    (∀ r ∈ rs, c ∉ r) →
    ∀ (ms : List (Option ℚ)) (D : List (Option ℚ)),
      (write_means rs ms D).getD c d = D.getD c d := by
  induction rs with
  | nil => intro _ ms D; rfl
  | cons r rs ih =>
    intro h ms D
    have hr : c ∉ r := h r (List.mem_cons_self r rs)
    have hrs : ∀ r2 ∈ rs, c ∉ r2 := fun r2 hm => h r2 (List.mem_cons_of_mem _ hm)
    cases ms with
    | nil => rfl
    | cons mv ms =>
      rw [write_means, ih hrs]
      exact foldl_set_getD_not_mem r _ c d hr D

theorem write_means_getD_unique (rs : List (List ℕ)) :
    ∀ (ms : List (Option ℚ)) (D : List (Option ℚ)) (c i : ℕ) (d : Option ℚ),
      rs.length = ms.length → i < rs.length → c < D.length →
      c ∈ rs.getD i [] →
      (∀ j, j < rs.length → j ≠ i → c ∉ rs.getD j []) →
      (write_means rs ms D).getD c d = ms.getD i d := by
  induction rs with
  | nil =>
    intro ms D c i d _ hi _ _ _
    exact absurd hi (Nat.not_lt_zero i)
  | cons r rs ih =>
    intro ms D c i d hlen hi hc hmem huniq
    obtain ⟨mv, ms, rfl⟩ : ∃ mv ms2, ms = mv :: ms2 := by
      cases ms with
      | nil => simp at hlen
      | cons mv ms2 => exact ⟨mv, ms2, rfl⟩
    cases i with
    | zero =>
      have hmem0 : c ∈ r := by simpa using hmem
      have hrest : ∀ r2 ∈ rs, c ∉ r2 := by
        intro r2 hm
        obtain ⟨j, hj, rfl⟩ := List.getElem_of_mem hm
        have := huniq (j + 1) (by simpa using Nat.succ_lt_succ hj)
          (Nat.succ_ne_zero j)
        simpa [List.getD_cons_succ, List.getD_eq_getElem?_getD,
          List.getElem?_eq_getElem hj] using this
      rw [write_means, write_means_getD_not_mem rs c d hrest]
      simpa using foldl_set_getD_mem r mv c d D hc hmem0
    | succ i =>
      have hr : c ∉ r := by
        have := huniq 0 (Nat.succ_pos _) (Nat.zero_ne_add_one i).elim
        simpa using huniq 0 (Nat.succ_pos _) (by omega)
      rw [write_means]
      have hlen2 : rs.length = ms.length := by simpa using hlen
      have hi2 : i < rs.length := by simpa using Nat.lt_of_succ_lt_succ hi
      have hc2 : c < (r.foldl (fun E c2 => E.set c2 mv) D).length := by
        rw [foldl_set_length]
        exact hc
      have hmem2 : c ∈ rs.getD i [] := by simpa using hmem
      have huniq2 : ∀ j, j < rs.length → j ≠ i → c ∉ rs.getD j [] := by
        intro j hj hne
        have := huniq (j + 1) (by simpa using Nat.succ_lt_succ hj) (by omega)
        simpa using this
      rw [ih ms _ c i d hlen2 hi2 hc2 hmem2 huniq2]
      simp

/-- Arithmetic mean as numpy computes it (sum over length). -/
def np_mean (l : List ℚ) : ℚ := l.sum / (l.length : ℚ)

/-- Population variance as numpy computes it inside np std. -/
def np_var (l : List ℚ) : ℚ :=
  ((l.map (fun t => (t - np_mean l) ^ 2)).sum) / (l.length : ℚ)

/-- numpy standard deviation: the square root of the population
variance. The square root of a rational is in general irrational, so
the embedding is parametrized by the square-root map sq; every property
proved below holds for all sq. -/
def np_std (sq : ℚ → ℚ) (l : List ℚ) : ℚ := sq (np_var l)

/-- The guarded standard deviation of lines 566-574 of the source: numpy
std of the subset when it is non-empty, else zero. -/
def std_or_zero (sq : ℚ → ℚ) (l : List ℚ) : ℚ :=
  if l.length ≠ 0 then np_std sq l else 0

/-- Count, sum and standard deviation of the missing and special
subsets, as stored by prebinning matrices at lines 561-574 of the
source. -/
structure SpecialStats where
  n_records_special : ℚ
  sum_special : ℚ
  std_special : ℚ
  n_records_missing : ℚ
  sum_missing : ℚ
  std_missing : ℚ
deriving DecidableEq

/-- The computation of the special and missing statistics at lines
561-574 of the source. -/
def prebinning_stats (sq : ℚ → ℚ) (z_missing z_special : List ℚ) :
    SpecialStats :=
  { n_records_special := (z_special.length : ℚ)
    sum_special := z_special.sum
    std_special := std_or_zero sq z_special
    n_records_missing := (z_missing.length : ℚ)
    sum_missing := z_missing.sum
    std_missing := std_or_zero sq z_missing }

/-- The arrays assembled during post-processing (lines 484-521 of the
source): the mean matrix D and partition matrix P flattened to length
m times n, and the three per-bin statistics arrays. -/
structure PostResult where
  D : List (Option ℚ)
  P : List ℤ
  opt_sums : List ℚ
  opt_n_records : List ℚ
  opt_stds : List ℚ
deriving DecidableEq

/-- The solution reconstruction of fit, lines 484-521 of the source.
The numpy empty allocations have unspecified contents, modelled by the
explicit garbage parameters gD, gP, gS, gN (np zeros for the stds array
is a genuine zero fill). Each selected candidate writes its ordinal
into P and its recomputed mean (sum divided by count, line 502, with no
zero-count guard) into D over the cells it covers; its statistics are
written sequentially into the opt arrays, whose two trailing slots then
receive the special and missing statistics (lines 511-517). -/
def reconstruct (rows : List (List ℕ)) (solution : List Bool)
    (n_records sums stds : List ℚ) (m n : ℕ)
    (gD : Option ℚ) (gP : ℤ) (gS gN : ℚ) (st : SpecialStats) : PostResult :=
  let selected_rows := bool_mask rows solution
  let sel_n := bool_mask n_records solution
  let sel_s := bool_mask sums solution
  let sel_t := bool_mask stds solution
  let k := selected_rows.length
  let means := (sel_s.zip sel_n).map (fun q => np_div q.1 q.2)
  { D := write_means selected_rows means (List.replicate (m * n) gD)
    P := write_cells selected_rows 0 (List.replicate (m * n) gP)
    opt_sums := ((write_seq sel_s 0 (List.replicate (k + 2) gS)).set k
        st.sum_special).set (k + 1) st.sum_missing
    opt_n_records := ((write_seq sel_n 0 (List.replicate (k + 2) gN)).set k
        st.n_records_special).set (k + 1) st.n_records_missing
    opt_stds := ((write_seq sel_t 0 (List.replicate (k + 2) 0)).set k
        st.std_special).set (k + 1) st.std_missing }

/-- C7: after fit the per-bin statistics arrays are exactly the selected
candidate statistics followed by two trailing virtual bins, the special
subset at the second-to-last position and the missing subset at the
last, each carrying the count, sum and standard deviation of its
segregated subset, with the standard deviation zero whenever the subset
is empty; this holds for every square-root map sq. -/
theorem c7_trailing_virtual_bins (rows : List (List ℕ)) (solution : List Bool)
    (n_records sums stds : List ℚ) (m n : ℕ) (gD : Option ℚ) (gP : ℤ)
    (gS gN : ℚ) (sq : ℚ → ℚ) (z_missing z_special : List ℚ)
    (hn : n_records.length = rows.length) (hs : sums.length = rows.length)
    (ht : stds.length = rows.length) :
    (reconstruct rows solution n_records sums stds m n gD gP gS gN
        (prebinning_stats sq z_missing z_special)).opt_n_records =
      bool_mask n_records solution ++
        [(z_special.length : ℚ), (z_missing.length : ℚ)] ∧
    (reconstruct rows solution n_records sums stds m n gD gP gS gN
        (prebinning_stats sq z_missing z_special)).opt_sums =
      bool_mask sums solution ++ [z_special.sum, z_missing.sum] ∧
    (reconstruct rows solution n_records sums stds m n gD gP gS gN
        (prebinning_stats sq z_missing z_special)).opt_stds =
      bool_mask stds solution ++
        [std_or_zero sq z_special, std_or_zero sq z_missing] ∧
    (z_special = [] → std_or_zero sq z_special = 0) ∧
    (z_missing = [] → std_or_zero sq z_missing = 0) := by
  refine ⟨?_, ?_, ?_, fun h => by simp [std_or_zero, h],
    fun h => by simp [std_or_zero, h]⟩
  · simp only [reconstruct]
    rw [← bool_mask_length_congr solution n_records rows hn]
    exact opt_array_writes _ _ _ _
  · simp only [reconstruct]
    rw [← bool_mask_length_congr solution sums rows hs]
    exact opt_array_writes _ _ _ _
  · simp only [reconstruct]
    rw [← bool_mask_length_congr solution stds rows ht]
    exact opt_array_writes _ _ _ _

theorem c7_trailing_virtual_bins_witness :
    (([(1 : ℚ), 1] : List ℚ).length = ([[0], [1]] : List (List ℕ)).length) ∧
    (reconstruct [[0], [1]] [true, true] [1, 1] [2, 3] [0, 0] 1 2 none 0 0 0
        (prebinning_stats id [5, 5] [])).opt_n_records =
      bool_mask [1, 1] [true, true] ++
        [((([] : List ℚ)).length : ℚ), (([(5 : ℚ), 5]).length : ℚ)] ∧
    (reconstruct [[0], [1]] [true, true] [1, 1] [2, 3] [0, 0] 1 2 none 0 0 0
        (prebinning_stats id [5, 5] [])).opt_sums =
      bool_mask [2, 3] [true, true] ++ [([] : List ℚ).sum, ([(5 : ℚ), 5]).sum] ∧
    (reconstruct [[0], [1]] [true, true] [1, 1] [2, 3] [0, 0] 1 2 none 0 0 0
        (prebinning_stats id [5, 5] [])).opt_stds =
      bool_mask [0, 0] [true, true] ++
        [std_or_zero id [], std_or_zero id [5, 5]] ∧
    (([] : List ℚ) = [] → std_or_zero id [] = 0) ∧
    (([(5 : ℚ), 5]) = [] → std_or_zero id [5, 5] = 0) :=
  ⟨rfl, c7_trailing_virtual_bins [[0], [1]] [true, true] [1, 1] [2, 3] [0, 0]
    1 2 none 0 0 0 id [5, 5] [] rfl rfl rfl⟩

theorem means_getD (l1 l2 : List ℚ) (i : ℕ) (h1 : i < l1.length)
    (h2 : i < l2.length) :
    ((l1.zip l2).map (fun q => np_div q.1 q.2)).getD i none =
      np_div (l1.getD i 0) (l2.getD i 0) := by
  have hz : i < (l1.zip l2).length := by
    rw [List.length_zip]
    exact lt_min h1 h2
  have hm : i < ((l1.zip l2).map (fun q => np_div q.1 q.2)).length := by
    simpa using hz
  rw [List.getD_eq_getElem?_getD, List.getElem?_eq_getElem hm,
    List.getD_eq_getElem?_getD, List.getElem?_eq_getElem h1,
    List.getD_eq_getElem?_getD, List.getElem?_eq_getElem h2]
  simp [List.getElem_zip]

/-- C2 (amended): during solution reconstruction each selected candidate
mean is recomputed as sum divided by count with NO zero-count guard
(line 502): for the unique candidate covering a cell, the mean stored
in D is the float quotient of the masked sum by the masked count; when
that count is zero the stored value is the non-finite float division
result (none), not zero. -/
theorem c2_mean_recomputed_no_guard (rows : List (List ℕ))
    (solution : List Bool) (n_records sums stds : List ℚ) (m n : ℕ)
    (gD : Option ℚ) (gP : ℤ) (gS gN : ℚ) (st : SpecialStats) (c i : ℕ)
    (hn : n_records.length = rows.length) (hs : sums.length = rows.length)
    (hc : c < m * n) (hi : i < (bool_mask rows solution).length)
    (hmem : c ∈ (bool_mask rows solution).getD i [])
    (huniq : ∀ j, j < (bool_mask rows solution).length → j ≠ i →
      c ∉ (bool_mask rows solution).getD j []) :
    (reconstruct rows solution n_records sums stds m n gD gP gS gN
        st).D.getD c none =
      np_div ((bool_mask sums solution).getD i 0)
        ((bool_mask n_records solution).getD i 0) ∧
    ((bool_mask n_records solution).getD i 0 = 0 →
      (reconstruct rows solution n_records sums stds m n gD gP gS gN
          st).D.getD c none = none) := by
  have hkn : (bool_mask n_records solution).length =
      (bool_mask rows solution).length :=
    bool_mask_length_congr solution n_records rows hn
  have hks : (bool_mask sums solution).length =
      (bool_mask rows solution).length :=
    bool_mask_length_congr solution sums rows hs
  have hmain : (reconstruct rows solution n_records sums stds m n gD gP gS gN
      st).D.getD c none =
      np_div ((bool_mask sums solution).getD i 0)
        ((bool_mask n_records solution).getD i 0) := by
    simp only [reconstruct]
    rw [write_means_getD_unique (bool_mask rows solution) _ _ c i none
      ?hlen hi (by simpa using hc) hmem huniq]
    · exact means_getD _ _ i (by rw [hks]; exact hi) (by rw [hkn]; exact hi)
    case hlen =>
      rw [List.length_map, List.length_zip, hks, hkn]
      exact (Nat.min_self _).symm
  refine ⟨hmain, fun hzero => ?_⟩
  rw [hmain, hzero]
  simp [np_div]

theorem c2_mean_recomputed_no_guard_witness :
    (reconstruct [[0]] [true] [2] [6] [0] 1 1 none 0 0 0
        ⟨0, 0, 0, 0, 0, 0⟩).D.getD 0 none =
      np_div ((bool_mask [6] [true]).getD 0 0)
        ((bool_mask [2] [true]).getD 0 0) ∧
    ((bool_mask [2] [true] : List ℚ).getD 0 0 = 0 →
      (reconstruct [[0]] [true] [2] [6] [0] 1 1 none 0 0 0
          ⟨0, 0, 0, 0, 0, 0⟩).D.getD 0 none = none) :=
  c2_mean_recomputed_no_guard [[0]] [true] [2] [6] [0] 1 1 none 0 0 0
    ⟨0, 0, 0, 0, 0, 0⟩ 0 0 rfl rfl (by decide) (by decide) (by decide)
    (by
      intro j hj hne
      have hlen : (bool_mask [[0]] [true] : List (List ℕ)).length = 1 := rfl
      rw [hlen] at hj
      omega)

/-- C2 (counterexample): a selected candidate with zero count and zero
sum stores the unguarded float division result in D, which is the
non-finite marker rather than the value zero the claim asserts. -/
theorem c2_zero_count_mean_cex :
    ¬ ((reconstruct [[0]] [true] [0] [0] [0] 1 1 (some 77) 9 0 0
        ⟨0, 0, 0, 0, 0, 0⟩).D = [some 0]) := by
  decide

/-- The tiling property in the words of the spec (sections 3 and 4.5):
every grid cell is covered by exactly one selected candidate. Stated as
a boolean for comparison with the reconstruction behaviour. -/
def covers_each_cell_once (sel_rows : List (List ℕ)) (n_cells : ℕ) : Bool :=
  (List.range n_cells).all
    (fun c => (sel_rows.filter (fun r => r.contains c)).length == 1)

/-- C5 (counterexample): a selection that does not tile the 1 by 2 grid
(the only selected candidate covers cell 0 only) is not detected: the
reconstruction completes and returns a bin table whose partition matrix
keeps the unspecified allocation value at the uncovered cell (7 or 9
depending on the garbage), so a corrupted table IS produced and no
assertion fires. -/
theorem c5_no_assertion_cex :
    covers_each_cell_once
      (bool_mask [[0], [1], [0, 1]] [true, false, false]) 2 = false ∧
    (reconstruct [[0], [1], [0, 1]] [true, false, false] [1, 1, 2] [0, 0, 0]
        [0, 0, 0] 1 2 none 7 0 0 ⟨0, 0, 0, 0, 0, 0⟩).P = [0, 7] ∧
    (reconstruct [[0], [1], [0, 1]] [true, false, false] [1, 1, 2] [0, 0, 0]
        [0, 0, 0] 1 2 none 9 0 0 ⟨0, 0, 0, 0, 0, 0⟩).P = [0, 9] ∧
    (reconstruct [[0], [1], [0, 1]] [true, false, false] [1, 1, 2] [0, 0, 0]
        [0, 0, 0] 1 2 none 7 0 0 ⟨0, 0, 0, 0, 0, 0⟩).opt_sums.length = 3 := by
  refine ⟨?_, ?_, ?_, ?_⟩ <;> decide

/-- C5 (amended): fit performs no tiling check during reconstruction:
for every selection, covering or not, the post-processing completes and
produces a bin table of the expected arity, and any cell covered by no
selected candidate simply retains the unspecified initial contents of
the partition matrix allocation (the garbage parameter gP). -/
theorem c5_no_tiling_assertion (rows : List (List ℕ)) (solution : List Bool)
    (n_records sums stds : List ℚ) (m n : ℕ) (gD : Option ℚ) (gP : ℤ)
    (gS gN : ℚ) (st : SpecialStats) (c : ℕ) (hc : c < m * n)
    (hun : ∀ r ∈ bool_mask rows solution, c ∉ r) :
    (reconstruct rows solution n_records sums stds m n gD gP gS gN
        st).P.getD c 0 = gP ∧
    (reconstruct rows solution n_records sums stds m n gD gP gS gN
        st).P.length = m * n ∧
    (reconstruct rows solution n_records sums stds m n gD gP gS gN
        st).opt_sums.length = (bool_mask rows solution).length + 2 := by
  refine ⟨?_, ?_, ?_⟩
  · simp only [reconstruct]
    rw [write_cells_getD_not_mem _ _ _ hun]
    simp [List.getD_eq_getElem?_getD, hc]
  · simp only [reconstruct]
    rw [write_cells_length]
    simp
  · simp only [reconstruct]
    rw [List.length_set, List.length_set, write_seq_length]
    simp

theorem c5_no_tiling_assertion_witness :
    (1 < 1 * 2) ∧
    (∀ r ∈ bool_mask [[0], [1], [0, 1]] [true, false, false], 1 ∉ r) ∧
    ((reconstruct [[0], [1], [0, 1]] [true, false, false] [1, 1, 2] [0, 0, 0]
        [0, 0, 0] 1 2 none 7 0 0 ⟨0, 0, 0, 0, 0, 0⟩).P.getD 1 0 = 7 ∧
      (reconstruct [[0], [1], [0, 1]] [true, false, false] [1, 1, 2] [0, 0, 0]
        [0, 0, 0] 1 2 none 7 0 0 ⟨0, 0, 0, 0, 0, 0⟩).P.length = 1 * 2 ∧
      (reconstruct [[0], [1], [0, 1]] [true, false, false] [1, 1, 2] [0, 0, 0]
        [0, 0, 0] 1 2 none 7 0 0 ⟨0, 0, 0, 0, 0, 0⟩).opt_sums.length =
        (bool_mask [[0], [1], [0, 1]] [true, false, false]).length + 2) :=
  ⟨by decide, by decide,
    c5_no_tiling_assertion [[0], [1], [0, 1]] [true, false, false] [1, 1, 2]
      [0, 0, 0] [0, 0, 0] 1 2 none 7 0 0 ⟨0, 0, 0, 0, 0, 0⟩ 1 (by decide)
      (by decide)⟩

/-- Solver status values of the external combinatorial solver contract
(spec section 6). -/
inductive SolverStatus
  | optimal
  | feasible
  | infeasible
  | time_limit_exceeded
deriving DecidableEq

/-- The model state left by fit: the recorded solver status, the
post-processed table, and the fitted flag. -/
structure FitState where
  status : SolverStatus
  post : PostResult
  is_fitted : Bool

/-- The tail of fit: lines 686-692 of the source record the solver
status and solution as model state with no branch on the status, the
post-processing of lines 484-536 then runs for every status, and line
553 marks the instance fitted unconditionally. -/
def fit_tail (status : SolverStatus) (solution : List Bool)
    (rows : List (List ℕ)) (n_records sums stds : List ℚ) (m n : ℕ)
    (gD : Option ℚ) (gP : ℤ) (gS gN : ℚ) (st : SpecialStats) : FitState :=
  { status := status
    post := reconstruct rows solution n_records sums stds m n gD gP gS gN st
    is_fitted := true }

/-- Error raised by query operations on an unfitted model. -/
inductive QueryError
  | not_fitted
deriving DecidableEq

/-- Modelled from the spec: the fitted-state guard comes from the base
class, which is not under src; spec section 7 item b: any query
operation invoked before a successful fit raises an unfit-model
error. -/
def check_is_fitted (s : FitState) : Except QueryError Unit :=
  if s.is_fitted then Except.ok () else Except.error QueryError.not_fitted

/-- transform entry (line 351 of the source): the fitted check runs
before delegating to the external transform routine. -/
def transform_guard (s : FitState) : Except QueryError Unit :=
  check_is_fitted s

/-- C3 (counterexample): after a fit whose solver reported infeasible
with an all-false selection, the instance is marked fitted and
transform passes the fitted check without raising an unfit-model
error. -/
theorem c3_transform_no_unfit_error_cex :
    (fit_tail SolverStatus.infeasible [false, false] [[0], [1]] [1, 1] [0, 0]
        [0, 0] 1 2 none 0 0 0 ⟨0, 0, 0, 0, 0, 0⟩).is_fitted = true ∧
    transform_guard (fit_tail SolverStatus.infeasible [false, false] [[0], [1]]
        [1, 1] [0, 0] [0, 0] 1 2 none 0 0 0 ⟨0, 0, 0, 0, 0, 0⟩) =
      Except.ok () :=
  ⟨rfl, rfl⟩

/-- C3 (amended): when the solver reports infeasible, fit records that
status as model state without raising — but it then completes, still
assembles a bin table of the usual arity from the (empty or undefined)
selection, and marks the model fitted, so subsequent query operations
such as transform do NOT raise unfit-model errors. -/
theorem c3_infeasible_recorded_model_fitted (solution : List Bool)
    (rows : List (List ℕ)) (n_records sums stds : List ℚ) (m n : ℕ)
    (gD : Option ℚ) (gP : ℤ) (gS gN : ℚ) (st : SpecialStats) :
    (fit_tail SolverStatus.infeasible solution rows n_records sums stds m n
        gD gP gS gN st).status = SolverStatus.infeasible ∧
    (fit_tail SolverStatus.infeasible solution rows n_records sums stds m n
        gD gP gS gN st).is_fitted = true ∧
    transform_guard (fit_tail SolverStatus.infeasible solution rows n_records
        sums stds m n gD gP gS gN st) = Except.ok () ∧
    (fit_tail SolverStatus.infeasible solution rows n_records sums stds m n
        gD gP gS gN st).post.opt_sums.length =
      (bool_mask rows solution).length + 2 := by
  refine ⟨rfl, rfl, rfl, ?_⟩
  simp only [fit_tail, reconstruct]
  rw [List.length_set, List.length_set, write_seq_length]
  simp

/-- Single numpy 2-d assignment M at row i column j: basic integer
indexing raises IndexError when either index is out of bounds for the
allocated shape, modelled as none. -/
def mat_set (M : List (List ℚ)) (i j : ℕ) (v : ℚ) :
    Option (List (List ℚ)) :=
  match M[i]? with
  | none => none
  | some row => if j < row.length then some (M.set i (row.set j v)) else none

/-- The clean samples falling in pre-bin j of the x axis and pre-bin i
of the y axis: the combined boolean mask of lines 590-593 of the
source. -/
def cell_mask (splits_x splits_y : List ℚ) (clean : List (ℚ × ℚ × ℚ))
    (j i : ℕ) : List (ℚ × ℚ × ℚ) :=
  clean.filter (fun s =>
    np_digitize s.1 splits_x == j && np_digitize s.2.1 splits_y == i)

/-- Cell count: count nonzero of the mask (line 596). -/
def cell_count (splits_x splits_y : List ℚ) (clean : List (ℚ × ℚ × ℚ))
    (j i : ℕ) : ℕ :=
  (cell_mask splits_x splits_y clean j i).length

/-- Cell sum of z over the mask (line 597). -/
def cell_sum (splits_x splits_y : List ℚ) (clean : List (ℚ × ℚ × ℚ))
    (j i : ℕ) : ℚ :=
  ((cell_mask splits_x splits_y clean j i).map (fun s => s.2.2)).sum

/-- Cell sum of z squared over the mask (line 598). -/
def cell_sum_sq (splits_x splits_y : List ℚ) (clean : List (ℚ × ℚ × ℚ))
    (j i : ℕ) : ℚ :=
  ((cell_mask splits_x splits_y clean j i).map (fun s => s.2.2 ^ 2)).sum

/-- The three matrices threaded through the write loop. -/
abbrev Mat3 : Type :=
  List (List ℚ) × List (List ℚ) × List (List ℚ)

/-- The body of the write loop of lines 595-598 of the source: store the
cell count, sum and sum of squares of cell (x bin j, y bin i) at row i
column j of the three matrices. -/
def prebinning_step (splits_x splits_y : List ℚ)
    (clean : List (ℚ × ℚ × ℚ)) (i j : ℕ) (acc : Mat3) : Option Mat3 := do
  let R ← mat_set acc.1 i j ((cell_count splits_x splits_y clean j i : ℚ))
  let S ← mat_set acc.2.1 i j (cell_sum splits_x splits_y clean j i)
  let SS ← mat_set acc.2.2 i j (cell_sum_sq splits_x splits_y clean j i)
  pure (R, S, SS)

/-- The cell-matrix construction of prebinning matrices, lines 576-600
of the source: the three matrices are allocated with shape n bins x by
n bins y (lines 585-587), while the write loop runs i over the y bins
and j over the x bins and writes R at row i column j (lines 589-598).
A write outside the allocated shape is the numpy IndexError, modelled
as none; g is the unspecified np empty fill. -/
def prebinning_matrices (splits_x splits_y : List ℚ)
    (clean : List (ℚ × ℚ × ℚ)) (g : ℚ) : Option Mat3 :=
  let n_bins_x := splits_x.length + 1
  let n_bins_y := splits_y.length + 1
  let R0 := List.replicate n_bins_x (List.replicate n_bins_y g)
  let S0 := List.replicate n_bins_x (List.replicate n_bins_y g)
  let SS0 := List.replicate n_bins_x (List.replicate n_bins_y g)
  (List.range n_bins_y).foldlM
    (fun acc i =>
      (List.range n_bins_x).foldlM
        (fun acc2 j => prebinning_step splits_x splits_y clean i j acc2)
        acc)
    (R0, S0, SS0)

/-- C1 (code defect evaluation): with one split point on x and two on y
(two x pre-bins, three y pre-bins) the write loop indexes row 2 of a
2-row allocation, so the matrix construction raises instead of
returning cell matrices: no aggregation invariant can hold because the
matrices are never built for any non-square grid. -/
theorem c1_prebinning_matrices_index_error :
    prebinning_matrices [1] [1, 2] [((0 : ℚ), (0 : ℚ), (1 : ℚ))] 0 = none := by
  decide

theorem c6_digitize_right_open_witness :
    List.Sorted (· < ·) [(1 : ℚ), 3] ∧
    (np_digitize 2 [(1 : ℚ), 3] ≤ ([(1 : ℚ), 3]).length ∧
      (∀ k (hk : k < ([(1 : ℚ), 3]).length), k < np_digitize 2 [(1 : ℚ), 3] →
        ([(1 : ℚ), 3]).get ⟨k, hk⟩ ≤ 2) ∧
      (∀ k (hk : k < ([(1 : ℚ), 3]).length), np_digitize 2 [(1 : ℚ), 3] ≤ k →
        2 < ([(1 : ℚ), 3]).get ⟨k, hk⟩)) :=
  ⟨by decide, c6_digitize_right_open [(1 : ℚ), 3] 2 (by decide)⟩

theorem foldl_set_fn_length {α : Type} (f : ℕ → α) (js : List ℕ) :
    ∀ (L : List α), (js.foldl (fun r j => r.set j (f j)) L).length = L.length := by
  induction js with
  | nil => intro L; rfl
  | cons j js ih =>
    intro L
    rw [List.foldl_cons, ih]
    exact List.length_set L j (f j)

theorem foldl_set_fn_getD_not_mem {α : Type} (f : ℕ → α) (js : List ℕ)
    (c : ℕ) (d : α) :
    c ∉ js →
    ∀ (L : List α),
      (js.foldl (fun r j => r.set j (f j)) L).getD c d = L.getD c d := by
  induction js with
  | nil => intro _ L; rfl
  | cons j js ih =>
    intro hc L
    have hcj : c ≠ j := fun h => hc (h ▸ List.mem_cons_self j js)
    have hcr : c ∉ js := fun h => hc (List.mem_cons_of_mem _ h)
    rw [List.foldl_cons, ih hcr]
    simp [List.getD_eq_getElem?_getD, List.getElem?_set_ne (Ne.symm hcj)]

theorem foldl_set_fn_fill {α : Type} (f : ℕ → α) :
    ∀ (k : ℕ) (L : List α), k ≤ L.length →
      (List.range k).foldl (fun r j => r.set j (f j)) L =
        (List.range k).map f ++ L.drop k := by
  intro k
  induction k with
  | zero => intro L _; simp
  | succ k ih =>
    intro L hk
    have hkL : k < L.length := Nat.lt_of_succ_le hk
    rw [List.range_succ, List.foldl_append, ih L (Nat.le_of_lt hkL)]
    simp only [List.foldl_cons, List.foldl_nil]
    rw [List.set_append_right _ _ (by simp)]
    simp only [List.length_map, List.length_range, Nat.sub_self]
    rw [List.drop_eq_getElem_cons hkL, List.set_cons_zero]
    simp [List.map_append, List.range_succ]

theorem set_getD_self {α : Type} (d : α) :
    ∀ (L : List α) (i : ℕ), i < L.length → L.set i (L.getD i d) = L
  | a :: l, 0, _ => by simp
  | a :: l, i + 1, h => by
    have hi : i < l.length := by simpa using h
    simp only [List.set_cons_succ, List.getD_cons_succ]
    exact congrArg (List.cons a) (set_getD_self d l i hi)

theorem mat_set_set_row {M : List (List ℚ)} {i j : ℕ} {row : List ℚ} (v : ℚ)
    (hi : i < M.length) (hj : j < row.length) :
    mat_set (M.set i row) i j v = some (M.set i (row.set j v)) := by
  unfold mat_set
  rw [List.getElem?_set_self (by simpa using hi)]
  simp [hj, List.set_set]

theorem prebinning_inner_fold (sx sy : List ℚ) (clean : List (ℚ × ℚ × ℚ))
    (i : ℕ) :
    ∀ (w : ℕ) (R S SS : List (List ℚ)),
      i < R.length → i < S.length → i < SS.length →
      w ≤ (R.getD i []).length → w ≤ (S.getD i []).length →
      w ≤ (SS.getD i []).length →
      (List.range w).foldlM
          (fun acc2 j => prebinning_step sx sy clean i j acc2) (R, S, SS) =
        some
          (R.set i ((List.range w).foldl
              (fun r j => r.set j ((cell_count sx sy clean j i : ℚ)))
              (R.getD i [])),
            S.set i ((List.range w).foldl
              (fun r j => r.set j (cell_sum sx sy clean j i)) (S.getD i [])),
            SS.set i ((List.range w).foldl
              (fun r j => r.set j (cell_sum_sq sx sy clean j i))
              (SS.getD i []))) := by
  intro w
  induction w with
  | zero =>
    intro R S SS hiR hiS hiSS _ _ _
    simp only [List.range_zero, List.foldlM_nil, List.foldl_nil]
    rw [set_getD_self [] R i hiR, set_getD_self [] S i hiS,
      set_getD_self [] SS i hiSS]
    rfl
  | succ w ih =>
    intro R S SS hiR hiS hiSS hwR hwS hwSS
    rw [List.range_succ, List.foldlM_append,
      ih R S SS hiR hiS hiSS (Nat.le_of_succ_le hwR) (Nat.le_of_succ_le hwS)
        (Nat.le_of_succ_le hwSS)]
    have hlR : ((List.range w).foldl
        (fun r j => r.set j ((cell_count sx sy clean j i : ℚ)))
        (R.getD i [])).length = (R.getD i []).length :=
      foldl_set_fn_length _ _ _
    have hlS : ((List.range w).foldl
        (fun r j => r.set j (cell_sum sx sy clean j i))
        (S.getD i [])).length = (S.getD i []).length :=
      foldl_set_fn_length _ _ _
    have hlSS : ((List.range w).foldl
        (fun r j => r.set j (cell_sum_sq sx sy clean j i))
        (SS.getD i [])).length = (SS.getD i []).length :=
      foldl_set_fn_length _ _ _
    have hstep : prebinning_step sx sy clean i w
        (R.set i ((List.range w).foldl
            (fun r j => r.set j ((cell_count sx sy clean j i : ℚ)))
            (R.getD i [])),
          S.set i ((List.range w).foldl
            (fun r j => r.set j (cell_sum sx sy clean j i)) (S.getD i [])),
          SS.set i ((List.range w).foldl
            (fun r j => r.set j (cell_sum_sq sx sy clean j i))
            (SS.getD i []))) =
        some
          (R.set i (((List.range w).foldl
              (fun r j => r.set j ((cell_count sx sy clean j i : ℚ)))
              (R.getD i [])).set w ((cell_count sx sy clean w i : ℚ))),
            S.set i (((List.range w).foldl
              (fun r j => r.set j (cell_sum sx sy clean j i))
              (S.getD i [])).set w (cell_sum sx sy clean w i)),
            SS.set i (((List.range w).foldl
              (fun r j => r.set j (cell_sum_sq sx sy clean j i))
              (SS.getD i [])).set w (cell_sum_sq sx sy clean w i))) := by
      unfold prebinning_step
      rw [mat_set_set_row _ hiR (by rw [hlR]; exact hwR),
        mat_set_set_row _ hiS (by rw [hlS]; exact hwS),
        mat_set_set_row _ hiSS (by rw [hlSS]; exact hwSS)]
      rfl
    simp only [List.foldl_append, List.foldl_cons, List.foldl_nil]
    simp only [List.getD_eq_getElem?_getD] at hstep
    simp [List.foldlM_cons, List.foldlM_nil, hstep]

theorem prebinning_outer_fold (sx sy : List ℚ) (clean : List (ℚ × ℚ × ℚ))
    (w : ℕ) :
    ∀ (h : ℕ) (R S SS : List (List ℚ)),
      h ≤ R.length → h ≤ S.length → h ≤ SS.length →
      (∀ r ∈ R, r.length = w) → (∀ r ∈ S, r.length = w) →
      (∀ r ∈ SS, r.length = w) →
      (List.range h).foldlM
          (fun acc i => (List.range w).foldlM
            (fun acc2 j => prebinning_step sx sy clean i j acc2) acc)
          (R, S, SS) =
        some
          ((List.range h).foldl (fun M i => M.set i
              ((List.range w).map
                (fun j => (cell_count sx sy clean j i : ℚ)))) R,
            (List.range h).foldl (fun M i => M.set i
              ((List.range w).map (fun j => cell_sum sx sy clean j i))) S,
            (List.range h).foldl (fun M i => M.set i
              ((List.range w).map (fun j => cell_sum_sq sx sy clean j i))) SS) := by
  intro h
  induction h with
  | zero =>
    intro R S SS _ _ _ _ _ _
    rfl
  | succ h ih =>
    intro R S SS hR hS hSS hrR hrS hrSS
    rw [List.range_succ, List.foldlM_append,
      ih R S SS (Nat.le_of_succ_le hR) (Nat.le_of_succ_le hS)
        (Nat.le_of_succ_le hSS) hrR hrS hrSS]
    have hlenR : ((List.range h).foldl (fun M i => M.set i
        ((List.range w).map
          (fun j => (cell_count sx sy clean j i : ℚ)))) R).length =
        R.length := foldl_set_fn_length _ _ _
    have hlenS : ((List.range h).foldl (fun M i => M.set i
        ((List.range w).map (fun j => cell_sum sx sy clean j i))) S).length =
        S.length := foldl_set_fn_length _ _ _
    have hlenSS : ((List.range h).foldl (fun M i => M.set i
        ((List.range w).map (fun j => cell_sum_sq sx sy clean j i))) SS).length =
        SS.length := foldl_set_fn_length _ _ _
    have hhR : h < ((List.range h).foldl (fun M i => M.set i
        ((List.range w).map
          (fun j => (cell_count sx sy clean j i : ℚ)))) R).length := by
      rw [hlenR]; omega
    have hhS : h < ((List.range h).foldl (fun M i => M.set i
        ((List.range w).map (fun j => cell_sum sx sy clean j i))) S).length := by
      rw [hlenS]; omega
    have hhSS : h < ((List.range h).foldl (fun M i => M.set i
        ((List.range w).map (fun j => cell_sum_sq sx sy clean j i))) SS).length := by
      rw [hlenSS]; omega
    have hnm : h ∉ List.range h := by simp
    have hrowR : ((List.range h).foldl (fun M i => M.set i
        ((List.range w).map
          (fun j => (cell_count sx sy clean j i : ℚ)))) R).getD h [] =
        R.getD h [] := foldl_set_fn_getD_not_mem _ _ h [] hnm R
    have hrowS : ((List.range h).foldl (fun M i => M.set i
        ((List.range w).map (fun j => cell_sum sx sy clean j i))) S).getD h [] =
        S.getD h [] := foldl_set_fn_getD_not_mem _ _ h [] hnm S
    have hrowSS : ((List.range h).foldl (fun M i => M.set i
        ((List.range w).map (fun j => cell_sum_sq sx sy clean j i))) SS).getD
          h [] = SS.getD h [] := foldl_set_fn_getD_not_mem _ _ h [] hnm SS
    have hRlen : (R.getD h []).length = w := by
      have hh : h < R.length := hR
      have heq : R.getD h [] = R[h] := by
        simp [List.getD_eq_getElem?_getD, List.getElem?_eq_getElem hh]
      rw [heq]
      exact hrR _ (List.getElem_mem hh)
    have hSlen : (S.getD h []).length = w := by
      have hh : h < S.length := hS
      have heq : S.getD h [] = S[h] := by
        simp [List.getD_eq_getElem?_getD, List.getElem?_eq_getElem hh]
      rw [heq]
      exact hrS _ (List.getElem_mem hh)
    have hSSlen : (SS.getD h []).length = w := by
      have hh : h < SS.length := hSS
      have heq : SS.getD h [] = SS[h] := by
        simp [List.getD_eq_getElem?_getD, List.getElem?_eq_getElem hh]
      rw [heq]
      exact hrSS _ (List.getElem_mem hh)
    have hinner := prebinning_inner_fold sx sy clean h w _ _ _ hhR hhS hhSS
      (by rw [hrowR, hRlen]) (by rw [hrowS, hSlen]) (by rw [hrowSS, hSSlen])
    have hfillR : (List.range w).foldl
        (fun r j => r.set j ((cell_count sx sy clean j h : ℚ)))
        (((List.range h).foldl (fun M i => M.set i
          ((List.range w).map
            (fun j => (cell_count sx sy clean j i : ℚ)))) R).getD h []) =
        (List.range w).map (fun j => (cell_count sx sy clean j h : ℚ)) := by
      rw [hrowR, foldl_set_fn_fill _ w _ (by rw [hRlen]),
        List.drop_eq_nil_of_le (by rw [hRlen]), List.append_nil]
    have hfillS : (List.range w).foldl
        (fun r j => r.set j (cell_sum sx sy clean j h))
        (((List.range h).foldl (fun M i => M.set i
          ((List.range w).map (fun j => cell_sum sx sy clean j i))) S).getD
            h []) =
        (List.range w).map (fun j => cell_sum sx sy clean j h) := by
      rw [hrowS, foldl_set_fn_fill _ w _ (by rw [hSlen]),
        List.drop_eq_nil_of_le (by rw [hSlen]), List.append_nil]
    have hfillSS : (List.range w).foldl
        (fun r j => r.set j (cell_sum_sq sx sy clean j h))
        (((List.range h).foldl (fun M i => M.set i
          ((List.range w).map (fun j => cell_sum_sq sx sy clean j i))) SS).getD
            h []) =
        (List.range w).map (fun j => cell_sum_sq sx sy clean j h) := by
      rw [hrowSS, foldl_set_fn_fill _ w _ (by rw [hSSlen]),
        List.drop_eq_nil_of_le (by rw [hSSlen]), List.append_nil]
    rw [hfillR, hfillS, hfillSS] at hinner
    simp only [List.foldl_append, List.foldl_cons, List.foldl_nil]
    simp [List.foldlM_cons, List.foldlM_nil, hinner]

/-- Total of a two-dimensional numpy array: the sum of all entries. -/
def mat_sum (M : List (List ℚ)) : ℚ := (M.map (fun r => r.sum)).sum

theorem list_range_map_sum (f : ℕ → ℚ) :
    ∀ (n : ℕ), ((List.range n).map f).sum = ∑ t in Finset.range n, f t := by
  intro n
  induction n with
  | zero => simp
  | succ n ih =>
    rw [List.range_succ, List.map_append, List.sum_append,
      Finset.sum_range_succ, ih]
    simp

theorem length_cast_eq_sum_ones (l : List (ℚ × ℚ × ℚ)) :
    ((l.length : ℕ) : ℚ) = (l.map (fun _ => (1 : ℚ))).sum := by
  induction l with
  | nil => simp
  | cons a l ih =>
    rw [List.map_cons, List.sum_cons, ← ih, List.length_cons]
    push_cast
    ring

theorem cell_mask_cons (wt : (ℚ × ℚ × ℚ) → ℚ) (sx sy : List ℚ)
    (s : ℚ × ℚ × ℚ) (rest : List (ℚ × ℚ × ℚ)) (j i : ℕ) :
    ((cell_mask sx sy (s :: rest) j i).map wt).sum =
      (if np_digitize s.1 sx = j ∧ np_digitize s.2.1 sy = i then wt s else 0) +
        ((cell_mask sx sy rest j i).map wt).sum := by
  simp only [cell_mask, List.filter_cons]
  by_cases h : np_digitize s.1 sx = j ∧ np_digitize s.2.1 sy = i
  · have hb : (np_digitize s.1 sx == j && np_digitize s.2.1 sy == i) = true := by
      simp [h.1, h.2]
    simp [hb, h]
  · have hb : ¬ ((np_digitize s.1 sx == j && np_digitize s.2.1 sy == i) = true) := by
      simp only [Bool.and_eq_true, beq_iff_eq]
      exact h
    simp [hb, h]

theorem sum_sum_cell (wt : (ℚ × ℚ × ℚ) → ℚ) (sx sy : List ℚ) (nb : ℕ)
    (hx : sx.length < nb) (hy : sy.length < nb) :
    ∀ (clean : List (ℚ × ℚ × ℚ)),
      (∑ i in Finset.range nb, ∑ j in Finset.range nb,
        ((cell_mask sx sy clean j i).map wt).sum) = (clean.map wt).sum := by
  intro clean
  induction clean with
  | nil => simp [cell_mask]
  | cons s rest ih =>
    simp only [cell_mask_cons, Finset.sum_add_distrib, ih]
    have hpx : np_digitize s.1 sx ∈ Finset.range nb :=
      Finset.mem_range.mpr (lt_of_le_of_lt (np_digitize_le_length _ _) hx)
    have hpy : np_digitize s.2.1 sy ∈ Finset.range nb :=
      Finset.mem_range.mpr (lt_of_le_of_lt (np_digitize_le_length _ _) hy)
    have hinner : ∀ i, (∑ j in Finset.range nb,
        if np_digitize s.1 sx = j ∧ np_digitize s.2.1 sy = i then wt s
        else 0) = if np_digitize s.2.1 sy = i then wt s else 0 := by
      intro i
      by_cases hyi : np_digitize s.2.1 sy = i
      · simp only [hyi, and_true]
        rw [Finset.sum_ite_eq]
        simp [hpx]
      · simp [hyi]
    simp only [hinner]
    rw [Finset.sum_ite_eq]
    simp [hpy, add_comm]

/-- Supporting theorem for the C1 defect analysis: on the only grids the
transposed allocation survives (equal split counts on both axes, hence a
square cell grid), the construction succeeds and the intended invariant
does hold: the count matrix totals the number of clean samples and the
sum matrix totals the sum of clean z (and the sum-of-squares matrix the
sum of clean z squared). -/
theorem prebinning_matrices_square_sums (sx sy : List ℚ)
    (clean : List (ℚ × ℚ × ℚ)) (g : ℚ) (hlen : sx.length = sy.length) :
    ∃ R S SS : List (List ℚ),
      prebinning_matrices sx sy clean g = some (R, S, SS) ∧
      mat_sum R = (clean.length : ℚ) ∧
      mat_sum S = (clean.map (fun s => s.2.2)).sum ∧
      mat_sum SS = (clean.map (fun s => s.2.2 ^ 2)).sum := by
  have hx : sx.length < sx.length + 1 := Nat.lt_succ_self _
  have hy : sy.length < sx.length + 1 := by omega
  have hrows : ∀ r ∈ List.replicate (sx.length + 1)
      (List.replicate (sy.length + 1) (g : ℚ)), r.length = sx.length + 1 := by
    intro r hr
    rw [List.eq_of_mem_replicate hr]
    simp [hlen]
  have houter := prebinning_outer_fold sx sy clean (sx.length + 1)
    (sy.length + 1)
    (List.replicate (sx.length + 1) (List.replicate (sy.length + 1) g))
    (List.replicate (sx.length + 1) (List.replicate (sy.length + 1) g))
    (List.replicate (sx.length + 1) (List.replicate (sy.length + 1) g))
    (by simp [hlen]) (by simp [hlen]) (by simp [hlen]) hrows hrows hrows
  have hfill : ∀ (f : ℕ → List ℚ),
      (List.range (sy.length + 1)).foldl (fun M i => M.set i (f i))
        (List.replicate (sx.length + 1)
          (List.replicate (sy.length + 1) g)) =
      (List.range (sy.length + 1)).map f := by
    intro f
    rw [foldl_set_fn_fill _ (sy.length + 1) _ (by simp [hlen])]
    rw [List.drop_eq_nil_of_le (by simp [hlen])]
    simp
  rw [hfill, hfill, hfill] at houter
  refine ⟨_, _, _, houter, ?_, ?_, ?_⟩
  · unfold mat_sum
    rw [List.map_map]
    have hcomp : ((fun r : List ℚ => r.sum) ∘ fun i =>
        (List.range (sx.length + 1)).map
          (fun j => (cell_count sx sy clean j i : ℚ))) = fun i =>
        ((List.range (sx.length + 1)).map
          (fun j => (cell_count sx sy clean j i : ℚ))).sum := rfl
    rw [hcomp]
    have hone : ∀ i j, ((cell_count sx sy clean j i : ℕ) : ℚ) =
        ((cell_mask sx sy clean j i).map (fun _ => (1 : ℚ))).sum := by
      intro i j
      unfold cell_count
      exact length_cast_eq_sum_ones _
    simp only [hone]
    rw [list_range_map_sum]
    have hinner2 : ∀ i, ((List.range (sx.length + 1)).map
        (fun j => ((cell_mask sx sy clean j i).map (fun _ => (1:ℚ))).sum)).sum =
        ∑ j in Finset.range (sx.length + 1),
          ((cell_mask sx sy clean j i).map (fun _ => (1:ℚ))).sum := by
      intro i
      exact list_range_map_sum _ _
    simp only [hinner2]
    rw [show sy.length + 1 = sx.length + 1 by omega]
    rw [sum_sum_cell (fun _ => (1 : ℚ)) sx sy (sx.length + 1) hx hy clean]
    exact (length_cast_eq_sum_ones clean).symm
  · unfold mat_sum
    rw [List.map_map]
    have hcomp : ((fun r : List ℚ => r.sum) ∘ fun i =>
        (List.range (sx.length + 1)).map
          (fun j => cell_sum sx sy clean j i)) = fun i =>
        ((List.range (sx.length + 1)).map
          (fun j => cell_sum sx sy clean j i)).sum := rfl
    rw [hcomp]
    rw [list_range_map_sum]
    have hinner2 : ∀ i, ((List.range (sx.length + 1)).map
        (fun j => cell_sum sx sy clean j i)).sum =
        ∑ j in Finset.range (sx.length + 1), cell_sum sx sy clean j i := by
      intro i
      exact list_range_map_sum _ _
    simp only [hinner2]
    rw [show sy.length + 1 = sx.length + 1 by omega]
    exact sum_sum_cell (fun s => s.2.2) sx sy (sx.length + 1) hx hy clean
  · unfold mat_sum
    rw [List.map_map]
    have hcomp : ((fun r : List ℚ => r.sum) ∘ fun i =>
        (List.range (sx.length + 1)).map
          (fun j => cell_sum_sq sx sy clean j i)) = fun i =>
        ((List.range (sx.length + 1)).map
          (fun j => cell_sum_sq sx sy clean j i)).sum := rfl
    rw [hcomp]
    rw [list_range_map_sum]
    have hinner2 : ∀ i, ((List.range (sx.length + 1)).map
        (fun j => cell_sum_sq sx sy clean j i)).sum =
        ∑ j in Finset.range (sx.length + 1), cell_sum_sq sx sy clean j i := by
      intro i
      exact list_range_map_sum _ _
    simp only [hinner2]
    rw [show sy.length + 1 = sx.length + 1 by omega]
    exact sum_sum_cell (fun s => s.2.2 ^ 2) sx sy (sx.length + 1) hx hy clean

end OptBin
